import Mathlib

set_option maxRecDepth 10000

/-!
Verification of the `netter` IPv4 address validator
(`src/libs/netter/src/lib.rs`, function `ipv4::valid_ipv4`).

The Rust function takes a string slice, checks its byte length is in
[7, 15], then scans character by character keeping a block counter, a
3-slot `char` buffer initialised to `'\0'`, and a write cursor `pos`.
We embed the function as `valid_ipv4` over `List Char` (Rust `chars()`
iterates Unicode scalar values, which is exactly what `Char` is), with
the byte-length check expressed through the UTF-8 size of each
character so that it matches Rust's `str::len`.

An out-of-bounds array write (which would panic in Rust) is modelled by
the dedicated result `RunResult.crash`, so that panic freedom is a
provable statement rather than an artefact of the embedding.
-/

namespace Netter

/-- The Rust `InvalidAddrErr` unit struct (`pub struct InvalidAddrErr;`). -/
structure InvalidAddrErr where
deriving DecidableEq

/-- The `Display` impl for `InvalidAddrErr`:
`write!(f, "invalid ipv4 address string")`. -/
def InvalidAddrErr.display (_ : InvalidAddrErr) : String :=
  "invalid ipv4 address string"

/-- Outcome of running `valid_ipv4`: the Rust function returns
`Result<bool, InvalidAddrErr>`; `crash` marks an out-of-bounds buffer
write, which in Rust would be a panic. -/
inductive RunResult where
  | ok (b : Bool)
  | err (e : InvalidAddrErr)
  | crash
deriving DecidableEq

/-- The null character used to initialise the block buffer (`'\0'`). -/
def nul : Char := Char.ofNat 0

/-- The numeric-range test performed when the block buffer is full
(3 digits).  The Rust code issues two consecutive early returns,
`if block[0] > '2' { return Err }` and
`if block[0] == '2' && (block[1] > '5' || (block[1] == '5' && block[2] > '5')) { return Err }`;
this predicate holds exactly when neither fires. -/
def blockRangeOk (b0 b1 b2 : Char) : Bool :=
  !(b0 > '2') && !(b0 == '2' && (b1 > '5' || (b1 == '5' && b2 > '5')))

/-- One slot write `block[pos] = c` into the fixed 3-slot buffer.
`none` means the index is out of bounds (a Rust panic). -/
def writeBlock (b0 b1 b2 : Char) (pos : Nat) (c : Char) :
    Option (Char × Char × Char) :=
  match pos with
  | 0 => some (c, b1, b2)
  | 1 => some (b0, c, b2)
  | 2 => some (b0, b1, c)
  | _ => none

/-- The character-by-character loop of `valid_ipv4`, carrying the
mutable state `block_count`, the three buffer slots and `pos`. -/
def scan : List Char → Nat → Char → Char → Char → Nat → RunResult
  | [], _, _, _, _, _ => .ok true
  | c :: cs, bc, b0, b1, b2, pos =>
    -- if the character is not a digit or a dot, the address is invalid
    if ¬ c.isDigit ∧ c ≠ '.' then .err ⟨⟩
    else if c = '.' then
      -- a dot after 4 blocks have been seen is invalid
      if bc = 4 then .err ⟨⟩
      -- an empty block (leading or doubled dot) is invalid
      else if b0 = nul then .err ⟨⟩
      -- a full 3-digit block must pass the ≤ 255 range test
      else if b2 ≠ nul ∧ ¬ blockRangeOk b0 b1 b2 then .err ⟨⟩
      else scan cs (bc + 1) nul nul nul 0
    -- a 4th digit in one block is invalid
    else if pos = 3 then .err ⟨⟩
    else
      match writeBlock b0 b1 b2 pos c with
      | some (b0', b1', b2') => scan cs bc b0' b1' b2' (pos + 1)
      | none => .crash

/-- Rust `str::len`: the number of UTF-8 bytes of the string. -/
def utf8Len (s : List Char) : Nat :=
  s.foldl (fun n c => n + c.utf8Size) 0

/-- The embedded `valid_ipv4`: length fast-reject, then the scan with
`block_count = 1`, an all-`'\0'` buffer and `pos = 0`. -/
def valid_ipv4 (s : List Char) : RunResult :=
  if utf8Len s > 15 ∨ utf8Len s < 7 then .err ⟨⟩
  else scan s 1 nul nul nul 0

/-- A char list that the scan accepts as one complete dot-terminated block:
one or two arbitrary digits, or three digits passing the range test.  This
is the shape the buffer has when a separator's checks all succeed. -/
def okOctet : List Char → Bool
  | [a] => a.isDigit
  | [a, b] => a.isDigit && b.isDigit
  | [a, b, c] => a.isDigit && b.isDigit && c.isDigit && blockRangeOk a b c
  | _ => false

/-- The canonical decimal numeral of `n` (no superfluous leading zeros),
as a list of digit characters. -/
def octetDigits (n : Nat) : List Char := Nat.toDigits 10 n

/-- The canonical dotted-decimal rendering of four octet values. -/
def ipv4Chars (n1 n2 n3 n4 : Nat) : List Char :=
  octetDigits n1 ++ '.' :: (octetDigits n2 ++ '.' :: (octetDigits n3 ++ '.' :: octetDigits n4))

/-! ### Character-level facts -/

theorem isDigit_ne_dot {c : Char} (h : c.isDigit = true) : c ≠ '.' := by
  intro hc
  rw [hc] at h
  exact absurd h (by decide)

theorem isDigit_ne_nul {c : Char} (h : c.isDigit = true) : c ≠ nul := by
  intro hc
  rw [hc] at h
  exact absurd h (by decide)

theorem utf8Size_of_isDigit {c : Char} (h : c.isDigit = true) : c.utf8Size = 1 := by
  simp [Char.isDigit] at h
  have h2 : c.val.toNat ≤ 57 := UInt32.toNat_le_of_le (by decide) h.2
  unfold Char.utf8Size
  rw [if_pos]
  refine UInt32.le_def.mpr (BitVec.le_def.mpr ?_)
  have h3 : c.val.toBitVec.toNat = c.val.toNat := rfl
  rw [h3]
  exact le_trans h2 (by decide)

theorem digit_eq_cases (c : Char) (h : c.isDigit = true) :
    c = '0' ∨ c = '1' ∨ c = '2' ∨ c = '3' ∨ c = '4' ∨ c = '5' ∨ c = '6' ∨ c = '7' ∨
      c = '8' ∨ c = '9' := by
  simp [Char.isDigit] at h
  have h1 : 48 ≤ c.val.toNat := UInt32.le_toNat_of_le (by decide) h.1
  have h2 : c.val.toNat ≤ 57 := UInt32.toNat_le_of_le (by decide) h.2
  have e : c = Char.ofNat c.toNat := (Char.ofNat_toNat c).symm
  have hk : c.toNat = 48 ∨ c.toNat = 49 ∨ c.toNat = 50 ∨ c.toNat = 51 ∨ c.toNat = 52 ∨
      c.toNat = 53 ∨ c.toNat = 54 ∨ c.toNat = 55 ∨ c.toNat = 56 ∨ c.toNat = 57 := by
    have hv : c.toNat = c.val.toNat := rfl
    omega
  rcases hk with hk | hk | hk | hk | hk | hk | hk | hk | hk | hk <;> rw [e, hk] <;> simp

/-! ### UTF-8 length facts -/

theorem utf8Len_foldl (s : List Char) :
    ∀ n : Nat, List.foldl (fun a c => a + c.utf8Size) n s = n + utf8Len s := by
  induction s with
  | nil => intro n; simp [utf8Len]
  | cons c cs ih =>
    intro n
    simp only [utf8Len, List.foldl]
    rw [ih (n + c.utf8Size), ih (0 + c.utf8Size)]
    omega

theorem utf8Len_cons (c : Char) (s : List Char) :
    utf8Len (c :: s) = c.utf8Size + utf8Len s := by
  show List.foldl (fun a c => a + c.utf8Size) (0 + c.utf8Size) s = c.utf8Size + utf8Len s
  rw [utf8Len_foldl s (0 + c.utf8Size)]
  omega

theorem utf8Len_append (s t : List Char) : utf8Len (s ++ t) = utf8Len s + utf8Len t := by
  induction s with
  | nil => simp [utf8Len]
  | cons c cs ih =>
    simp only [List.cons_append, utf8Len_cons, ih]
    omega

theorem length_le_utf8Len (s : List Char) : s.length ≤ utf8Len s := by
  induction s with
  | nil => simp [utf8Len]
  | cons c cs ih =>
    rw [utf8Len_cons, List.length_cons]
    have := Char.utf8Size_pos c
    omega

theorem utf8Len_eq_length {s : List Char} (h : ∀ c ∈ s, c.utf8Size = 1) :
    utf8Len s = s.length := by
  induction s with
  | nil => simp [utf8Len]
  | cons c cs ih =>
    rw [utf8Len_cons, List.length_cons, h c (by simp),
      ih (fun d hd => h d (by simp [hd]))]
    omega

/-! ### Stepping lemmas for the scanner -/

theorem scan_digit0 {a : Char} (ha : a.isDigit = true) {cs : List Char} {bc : Nat}
    {b0 b1 b2 : Char} : scan (a :: cs) bc b0 b1 b2 0 = scan cs bc a b1 b2 1 := by
  have hd : a ≠ '.' := isDigit_ne_dot ha
  simp [scan, ha, hd, writeBlock]

theorem scan_digit1 {a : Char} (ha : a.isDigit = true) {cs : List Char} {bc : Nat}
    {b0 b1 b2 : Char} : scan (a :: cs) bc b0 b1 b2 1 = scan cs bc b0 a b2 2 := by
  have hd : a ≠ '.' := isDigit_ne_dot ha
  simp [scan, ha, hd, writeBlock]

theorem scan_digit2 {a : Char} (ha : a.isDigit = true) {cs : List Char} {bc : Nat}
    {b0 b1 b2 : Char} : scan (a :: cs) bc b0 b1 b2 2 = scan cs bc b0 b1 a 3 := by
  have hd : a ≠ '.' := isDigit_ne_dot ha
  simp [scan, ha, hd, writeBlock]

theorem scan_dot {cs : List Char} {bc : Nat} {b0 b1 b2 : Char} {pos : Nat}
    (hbc : bc ≠ 4) (hb0 : b0 ≠ nul)
    (hr : b2 = nul ∨ blockRangeOk b0 b1 b2 = true) :
    scan ('.' :: cs) bc b0 b1 b2 pos = scan cs (bc + 1) nul nul nul 0 := by
  have h3 : ¬(b2 ≠ nul ∧ ¬ blockRangeOk b0 b1 b2) := by
    rcases hr with h | h
    · exact fun hc => hc.1 h
    · exact fun hc => hc.2 (by simp [h])
  simp [scan, hbc, hb0, h3]
  intro h4 h5
  exact absurd ⟨h4, by simp [h5]⟩ h3

theorem scan_okOctet_dot {ds : List Char} (h : okOctet ds = true) (cs : List Char)
    {bc : Nat} (hbc : bc ≠ 4) :
    scan (ds ++ '.' :: cs) bc nul nul nul 0 = scan cs (bc + 1) nul nul nul 0 := by
  rcases ds with _ | ⟨a, _ | ⟨b, _ | ⟨c, _ | ⟨d, tl⟩⟩⟩⟩
  · simp [okOctet] at h
  · simp only [okOctet] at h
    simp only [List.cons_append, List.nil_append]
    rw [scan_digit0 h, scan_dot hbc (isDigit_ne_nul h) (Or.inl rfl)]
  · simp only [okOctet, Bool.and_eq_true] at h
    simp only [List.cons_append, List.nil_append]
    rw [scan_digit0 h.1, scan_digit1 h.2, scan_dot hbc (isDigit_ne_nul h.1) (Or.inl rfl)]
  · simp only [okOctet, Bool.and_eq_true] at h
    obtain ⟨⟨⟨ha, hb⟩, hc⟩, hr⟩ := h
    simp only [List.cons_append, List.nil_append]
    rw [scan_digit0 ha, scan_digit1 hb, scan_digit2 hc,
      scan_dot hbc (isDigit_ne_nul ha) (Or.inr hr)]
  · simp [okOctet] at h

theorem scan_okOctet_end {ds : List Char} (h : okOctet ds = true) (bc : Nat) :
    scan ds bc nul nul nul 0 = .ok true := by
  rcases ds with _ | ⟨a, _ | ⟨b, _ | ⟨c, _ | ⟨d, tl⟩⟩⟩⟩
  · simp [okOctet] at h
  · simp only [okOctet] at h
    rw [scan_digit0 h]
    rfl
  · simp only [okOctet, Bool.and_eq_true] at h
    rw [scan_digit0 h.1, scan_digit1 h.2]
    rfl
  · simp only [okOctet, Bool.and_eq_true] at h
    obtain ⟨⟨⟨ha, hb⟩, hc⟩, hr⟩ := h
    rw [scan_digit0 ha, scan_digit1 hb, scan_digit2 hc]
    rfl
  · simp [okOctet] at h

/-! ### Totality of the scanner -/

theorem scan_result (s : List Char) : ∀ bc b0 b1 b2 pos, pos ≤ 3 →
    scan s bc b0 b1 b2 pos = .ok true ∨ scan s bc b0 b1 b2 pos = .err ⟨⟩ := by
  induction s with
  | nil => intro bc b0 b1 b2 pos _; left; rfl
  | cons c cs ih =>
    intro bc b0 b1 b2 pos hpos
    simp only [scan]
    by_cases h1 : ¬ c.isDigit ∧ c ≠ '.'
    · right; rw [if_pos h1]
    · rw [if_neg h1]
      by_cases h2 : c = '.'
      · rw [if_pos h2]
        by_cases h3 : bc = 4
        · right; rw [if_pos h3]
        · rw [if_neg h3]
          by_cases h4 : b0 = nul
          · right; rw [if_pos h4]
          · rw [if_neg h4]
            by_cases h5 : b2 ≠ nul ∧ ¬ blockRangeOk b0 b1 b2
            · right; rw [if_pos h5]
            · rw [if_neg h5]
              exact ih (bc + 1) nul nul nul 0 (by omega)
      · rw [if_neg h2]
        by_cases h6 : pos = 3
        · right; rw [if_pos h6]
        · rw [if_neg h6]
          rcases pos with _ | _ | _ | _ | p
          · exact ih bc c b1 b2 1 (by omega)
          · exact ih bc b0 c b2 2 (by omega)
          · exact ih bc b0 b1 c 3 (by omega)
          · exact absurd rfl h6
          · omega

theorem scan_not_ok_of_bad (s : List Char) : ∀ bc b0 b1 b2 pos (b : Bool),
    (∃ c ∈ s, c.isDigit = false ∧ c ≠ '.') → scan s bc b0 b1 b2 pos ≠ .ok b := by
  induction s with
  | nil =>
    intro _ _ _ _ _ _ hex
    rcases hex with ⟨c, hc, _⟩
    exact absurd hc (List.not_mem_nil c)
  | cons c cs ih =>
    intro bc b0 b1 b2 pos b hex
    simp only [scan]
    by_cases h1 : ¬ c.isDigit ∧ c ≠ '.'
    · rw [if_pos h1]; exact fun h => RunResult.noConfusion h
    · have hcs : ∃ d ∈ cs, d.isDigit = false ∧ d ≠ '.' := by
        rcases hex with ⟨d, hd, hbad⟩
        rcases List.mem_cons.mp hd with rfl | hm
        · exact absurd ⟨by simp [hbad.1], hbad.2⟩ h1
        · exact ⟨d, hm, hbad⟩
      rw [if_neg h1]
      by_cases h2 : c = '.'
      · rw [if_pos h2]
        by_cases h3 : bc = 4
        · rw [if_pos h3]; exact fun h => RunResult.noConfusion h
        · rw [if_neg h3]
          by_cases h4 : b0 = nul
          · rw [if_pos h4]; exact fun h => RunResult.noConfusion h
          · rw [if_neg h4]
            by_cases h5 : b2 ≠ nul ∧ ¬ blockRangeOk b0 b1 b2
            · rw [if_pos h5]; exact fun h => RunResult.noConfusion h
            · rw [if_neg h5]
              exact ih (bc + 1) nul nul nul 0 b hcs
      · rw [if_neg h2]
        by_cases h6 : pos = 3
        · rw [if_pos h6]; exact fun h => RunResult.noConfusion h
        · rw [if_neg h6]
          rcases pos with _ | _ | _ | _ | p
          · exact ih bc c b1 b2 1 b hcs
          · exact ih bc b0 c b2 2 b hcs
          · exact ih bc b0 b1 c 3 b hcs
          · exact absurd rfl h6
          · exact fun h => RunResult.noConfusion h

theorem valid_ipv4_total (s : List Char) :
    valid_ipv4 s = .ok true ∨ valid_ipv4 s = .err ⟨⟩ := by
  unfold valid_ipv4
  by_cases h : utf8Len s > 15 ∨ utf8Len s < 7
  · right; rw [if_pos h]
  · rw [if_neg h]
    exact scan_result s 1 nul nul nul 0 (by omega)

/-! ### Canonical octet facts (established by exhaustive evaluation) -/

theorem okOctet_octetDigits : ∀ n, n < 256 → okOctet (octetDigits n) = true := by decide

theorem octetDigits_len :
    ∀ n, n < 256 → 1 ≤ (octetDigits n).length ∧ (octetDigits n).length ≤ 3 := by decide

theorem okOctet_utf8Len {ds : List Char} (h : okOctet ds = true) :
    utf8Len ds = ds.length := by
  rcases ds with _ | ⟨a, _ | ⟨b, _ | ⟨c, _ | ⟨d, tl⟩⟩⟩⟩
  · simp [okOctet] at h
  · simp only [okOctet] at h
    simp [utf8Len_cons, utf8Size_of_isDigit h, utf8Len]
  · simp only [okOctet, Bool.and_eq_true] at h
    simp [utf8Len_cons, utf8Size_of_isDigit h.1, utf8Size_of_isDigit h.2, utf8Len]
  · simp only [okOctet, Bool.and_eq_true] at h
    obtain ⟨⟨⟨ha, hb⟩, hc⟩, hr⟩ := h
    simp [utf8Len_cons, utf8Size_of_isDigit ha, utf8Size_of_isDigit hb,
      utf8Size_of_isDigit hc, utf8Len]
  · simp [okOctet] at h

/-! ### The claims -/

/-- C1: every canonical dotted-decimal IPv4 address — four octet values in
[0, 255], each rendered as its canonical decimal numeral (no superfluous
leading zeros) and joined by single dots — is accepted: `valid_ipv4`
returns `Ok(true)` on it. -/
theorem valid_ipv4_canonical_ok (n1 n2 n3 n4 : Nat)
    (h1 : n1 ≤ 255) (h2 : n2 ≤ 255) (h3 : n3 ≤ 255) (h4 : n4 ≤ 255) :
    valid_ipv4 (ipv4Chars n1 n2 n3 n4) = .ok true := by
  have o1 := okOctet_octetDigits n1 (by omega)
  have o2 := okOctet_octetDigits n2 (by omega)
  have o3 := okOctet_octetDigits n3 (by omega)
  have o4 := okOctet_octetDigits n4 (by omega)
  have l1 := octetDigits_len n1 (by omega)
  have l2 := octetDigits_len n2 (by omega)
  have l3 := octetDigits_len n3 (by omega)
  have l4 := octetDigits_len n4 (by omega)
  have hdot : ('.' : Char).utf8Size = 1 := by decide
  have u : utf8Len (ipv4Chars n1 n2 n3 n4) = (octetDigits n1).length +
      (octetDigits n2).length + (octetDigits n3).length + (octetDigits n4).length + 3 := by
    rw [ipv4Chars, utf8Len_append, utf8Len_cons, utf8Len_append, utf8Len_cons,
      utf8Len_append, utf8Len_cons, hdot, okOctet_utf8Len o1, okOctet_utf8Len o2,
      okOctet_utf8Len o3, okOctet_utf8Len o4]
    omega
  unfold valid_ipv4
  rw [if_neg (by rw [u]; omega)]
  rw [ipv4Chars, scan_okOctet_dot o1 _ (by omega), scan_okOctet_dot o2 _ (by omega),
    scan_okOctet_dot o3 _ (by omega)]
  exact scan_okOctet_end o4 _

/-- Witness for C1 at the concrete canonical address 192.168.0.1. -/
theorem valid_ipv4_canonical_ok_witness :
    valid_ipv4 (ipv4Chars 192 168 0 1) = .ok true :=
  valid_ipv4_canonical_ok 192 168 0 1 (by decide) (by decide) (by decide) (by decide)

/-- C2: any string of fewer than 7 or more than 15 characters is rejected
with an error.  (The Rust code compares the UTF-8 byte length; a string
whose character count is under 7 while its byte count is in [7, 15] must
contain a multi-byte character, which then fails the digit-or-dot check
during the scan, so the claim holds for the character count as stated.) -/
theorem valid_ipv4_length_reject (s : List Char) (h : s.length < 7 ∨ s.length > 15) :
    valid_ipv4 s = .err ⟨⟩ := by
  rcases valid_ipv4_total s with hv | hv
  · exfalso
    unfold valid_ipv4 at hv
    by_cases hu : utf8Len s > 15 ∨ utf8Len s < 7
    · rw [if_pos hu] at hv
      exact RunResult.noConfusion hv
    · rw [if_neg hu] at hv
      push_neg at hu
      obtain ⟨hu1, hu2⟩ := hu
      rcases h with hs | hs
      · have hbad : ∃ c ∈ s, c.isDigit = false ∧ c ≠ '.' := by
          by_contra hall
          push_neg at hall
          have hone : ∀ c ∈ s, c.utf8Size = 1 := by
            intro c hc
            cases hd : c.isDigit with
            | true => exact utf8Size_of_isDigit hd
            | false => rw [hall c hc hd]; decide
          have := utf8Len_eq_length hone
          omega
        exact scan_not_ok_of_bad s 1 nul nul nul 0 true hbad hv
      · have := length_le_utf8Len s
        omega
  · exact hv

/-- Witness for C2 at the 5-character string "1.2.3". -/
theorem valid_ipv4_length_reject_witness :
    valid_ipv4 ("1.2.3".data) = .err ⟨⟩ :=
  valid_ipv4_length_reject ("1.2.3".data) (Or.inl (by decide))

/-- C3: the range check fires only at a separator, never at end of string,
so "1.1.1.999" — length within [7, 15], final octet 999 > 255 — is
accepted with `Ok(true)`. -/
theorem valid_ipv4_last_octet_unchecked :
    7 ≤ utf8Len ("1.1.1.999".data) ∧ utf8Len ("1.1.1.999".data) ≤ 15 ∧
      valid_ipv4 ("1.1.1.999".data) = .ok true := by decide

/-- C4: block-count completeness is never asserted at end of scan:
"123.456" (2 octets) and "100.200.100" (3 octets) are accepted. -/
theorem valid_ipv4_accepts_incomplete :
    valid_ipv4 ("123.456".data) = .ok true ∧
      valid_ipv4 ("100.200.100".data) = .ok true := by decide

/-- C5: "215" and "215.0" are both rejected with an error (both fall below
the 7-character minimum length). -/
theorem valid_ipv4_rejects_215_forms :
    valid_ipv4 ("215".data) = .err ⟨⟩ ∧ valid_ipv4 ("215.0".data) = .err ⟨⟩ := by decide

/-- C6: the result is always `Ok(true)` or an `InvalidAddrErr` whose
display text is the fixed string; `Ok(false)` is never produced. -/
theorem valid_ipv4_ok_true_or_fixed_err (s : List Char) :
    valid_ipv4 s = .ok true ∨
      ∃ e : InvalidAddrErr, valid_ipv4 s = .err e ∧
        e.display = "invalid ipv4 address string" := by
  rcases valid_ipv4_total s with h | h
  · exact Or.inl h
  · exact Or.inr ⟨⟨⟩, h, rfl⟩

/-- C7: `valid_ipv4` is total and never panics: the out-of-bounds buffer
write (modelled by `RunResult.crash`) is unreachable, because `pos` stays
at most 3 and the `pos == 3` branch errors before any write at index 3. -/
theorem valid_ipv4_no_crash (s : List Char) : valid_ipv4 s ≠ .crash := by
  rcases valid_ipv4_total s with h | h <;> rw [h] <;>
    exact fun hh => RunResult.noConfusion hh

/-- C8: for ASCII digits, the lexicographic 3-digit range test agrees with
the integer range check: the block passes iff its decimal value is ≤ 255. -/
theorem blockRangeOk_iff_le_255 (d0 d1 d2 : Char)
    (h0 : d0.isDigit = true) (h1 : d1.isDigit = true) (h2 : d2.isDigit = true) :
    blockRangeOk d0 d1 d2 = true ↔
      100 * (d0.toNat - 48) + 10 * (d1.toNat - 48) + (d2.toNat - 48) ≤ 255 := by
  rcases digit_eq_cases d0 h0 with rfl | rfl | rfl | rfl | rfl | rfl | rfl | rfl | rfl | rfl <;>
    rcases digit_eq_cases d1 h1 with rfl | rfl | rfl | rfl | rfl | rfl | rfl | rfl | rfl | rfl <;>
      rcases digit_eq_cases d2 h2 with rfl | rfl | rfl | rfl | rfl | rfl | rfl | rfl | rfl | rfl <;>
        decide

/-- Witness for C8 at the boundary block "255". -/
theorem blockRangeOk_iff_le_255_witness :
    100 * ('2'.toNat - 48) + 10 * ('5'.toNat - 48) + ('5'.toNat - 48) ≤ 255 :=
  (blockRangeOk_iff_le_255 '2' '5' '5' (by decide) (by decide) (by decide)).mp (by decide)

/-- C9: the spec's concrete examples behave as stated: the five listed
valid addresses succeed and the five listed invalid ones fail. -/
theorem valid_ipv4_spec_examples :
    valid_ipv4 ("1.1.1.1".data) = .ok true ∧
      valid_ipv4 ("255.255.255.255".data) = .ok true ∧
      valid_ipv4 ("10.0.0.1".data) = .ok true ∧
      valid_ipv4 ("192.168.0.9".data) = .ok true ∧
      valid_ipv4 ("2.255.99.254".data) = .ok true ∧
      valid_ipv4 ("256.1.1.1".data) = .err ⟨⟩ ∧
      valid_ipv4 (".10.256.0.9".data) = .err ⟨⟩ ∧
      valid_ipv4 ("10.256.0.1".data) = .err ⟨⟩ ∧
      valid_ipv4 ("10.358.0.1".data) = .err ⟨⟩ ∧
      valid_ipv4 ("295.34.1.5.".data) = .err ⟨⟩ := by decide

/-- C10: octets with leading zeros are accepted — nothing rejects a first
digit '0' in a 2- or 3-digit block, contrary to the code comment. -/
theorem valid_ipv4_accepts_leading_zeros :
    valid_ipv4 ("011.0.0.1".data) = .ok true ∧
      valid_ipv4 ("01.0.0.10".data) = .ok true := by decide

end Netter
